import Mathlib

/-!
# kube-timer: correlation handlers and latency statistics

A shallow embedding of `pkg/tools/utils.go`, `pkg/tools/const.go` and the two
informer callbacks of `pkg/timer/svc/svc.go`.

Modelling conventions

* `time.Time` is an integer count of nanoseconds since the zero `Time`; the
  zero value of the Go type is `0`.
* `time.Duration` is a Go `int64`: an `Int` kept inside `[-2^63, 2^63)`.
  Addition wraps (`wrap64`), `Time.Sub` saturates, `/` truncates toward zero
  and fails on a zero divisor.
* A Go run-time failure (index out of range, nil pointer dereference, integer
  division by zero) is the result `none`.
* `map[string]*T` is a total function `String → Option T`; `none` is the nil
  pointer a Go map lookup yields for an absent key.
* The channel `finishTimes` is the list of every value sent on it, oldest
  first.  The receiving side is not part of the model.
-/

namespace KubeTimer

/-! ## `time` -/

/-- Largest `time.Duration`. -/
def maxDuration : Int := 2 ^ 63 - 1

/-- Smallest `time.Duration`. -/
def minDuration : Int := -(2 ^ 63)

/-- Two's complement reduction of an integer to the `int64` range. -/
def wrap64 (x : Int) : Int := (x + 2 ^ 63) % 2 ^ 64 - 2 ^ 63

/-- `Time.Sub` of the Go library: `t - u`, saturated to the range of a
`Duration`. -/
def timeSub (t u : Int) : Int :=
  if t - u > maxDuration then maxDuration
  else if t - u < minDuration then minDuration
  else t - u

/-- Go `a + b` on `Duration`. -/
def durAdd (a b : Int) : Int := wrap64 (a + b)

/-- Go `a / b` on `Duration`: a run-time failure when `b` is zero, otherwise
the quotient truncated toward zero. -/
def durDiv (a b : Int) : Option Int :=
  if b = 0 then none else some (wrap64 (Int.tdiv a b))

/-! ## `pkg/tools/const.go` -/

/-- `tools.ServiceTimerModeCreate`. -/
def ServiceTimerModeCreate : String := "ServiceTimerModeCreate"

/-- `tools.ServiceTimerModeCreateAsync`. -/
def ServiceTimerModeCreateAsync : String := "ServiceTimerModeCreateAsync"

/-- `tools.ServiceTimerModeDelete`. -/
def ServiceTimerModeDelete : String := "ServiceTimerModeDelete"

/-- `tools.ServiceTimerModeDeleteAll`. -/
def ServiceTimerModeDeleteAll : String := "ServiceTimerModeDeleteAll"

/-- The record sent on `finishTimes`. -/
structure ObjectFinishTime where
  Name : String
  Started : Int
  Finished : Int
deriving DecidableEq, Repr

/-- The expression `t.Finished.Sub(t.Started)`, used by every statistic. -/
def duration (t : ObjectFinishTime) : Int := timeSub t.Finished t.Started

/-! ## `pkg/tools/utils.go` -/

/-- `GetMinTime`. -/
def GetMinTime (sorted : List ObjectFinishTime) : Option (String × Int) :=
  if sorted.length = 0 then some ("", 0)
  else do
    let x ← sorted[0]?
    pure (x.Name, duration x)

/-- `GetMaxTime`. -/
def GetMaxTime (sorted : List ObjectFinishTime) : Option (String × Int) :=
  if sorted.length = 0 then some ("", 0)
  else do
    let x ← sorted[sorted.length - 1]?
    pure (x.Name, duration x)

/-- The loop `for _, t := range times { total += t.Finished.Sub(t.Started) }`
starting from `total = 0`. -/
def sumDurations (times : List ObjectFinishTime) : Int :=
  times.foldl (fun total t => durAdd total (duration t)) 0

/-- `GetAvgTime`. -/
def GetAvgTime (times : List ObjectFinishTime) : Option Int :=
  if times.length = 0 then some 0
  else durDiv (sumDurations times) (times.length : Int)

/-- `GetMedianTime`. -/
def GetMedianTime (sorted : List ObjectFinishTime) : Option Int :=
  if sorted.length = 0 then some 0
  else if sorted.length % 2 = 0 then do
    let x ← sorted[sorted.length / 2]?
    pure (duration x)
  else do
    let x ← sorted[sorted.length / 2]?
    let y ← sorted[sorted.length / 2 + 1]?
    durDiv (durAdd (duration x) (duration y)) 2

/-- `GetTotalTime`. -/
def GetTotalTime (times : List ObjectFinishTime) : Option Int :=
  some (sumDurations times)

/-- Inner loop of the insertion sort of Go's `sort` package,
`for j := i; j > a && less(j, j-1); j-- { swap(j, j-1) }`: the element `x`
travels left past every predecessor it is less than.  The already sorted
prefix is passed back to front. -/
def insertBack {α : Type} (less : α → α → Bool) (x : α) : List α → List α
  | [] => [x]
  | y :: ys => if less x y then y :: insertBack less x ys else x :: y :: ys

/-- `sort.Slice`: the insertion sort that the Go library runs on slices of
fewer than twelve elements.  On longer slices the library switches to a
quicksort variant with the same contract, a permutation ordered by `less`,
with no promise on the relative order of equal elements. -/
def sortSlice {α : Type} (less : α → α → Bool) (l : List α) : List α :=
  (l.foldl (fun backwards x => insertBack less x backwards) []).reverse

/-- `Sort` of `utils.go` (the bare name is reserved in Lean). -/
def SortTimes (times : List ObjectFinishTime) : List ObjectFinishTime :=
  sortSlice (fun a b => decide (duration a < duration b)) times

/-! ## `pkg/timer/svc/svc.go`: the report -/

/-- The values `dumpServiceCreationResults` and `dumpServiceDeletionResults`
hand to `log.Printf`. -/
structure Report where
  count : Nat
  maxTime : Int
  maxName : String
  minTime : Int
  minName : String
  avgTime : Int
  medTime : Int
  totTime : Int
deriving DecidableEq, Repr

/-- `dumpServiceCreationResults`. -/
def dumpServiceCreationResults (creationTimes : List ObjectFinishTime) : Option Report := do
  let creationTimes := SortTimes creationTimes
  let (maxName, maxTime) ← GetMaxTime creationTimes
  let (minName, minTime) ← GetMinTime creationTimes
  let avgTime ← GetAvgTime creationTimes
  let medTime ← GetMedianTime creationTimes
  let totTime ← GetTotalTime creationTimes
  pure ⟨creationTimes.length, maxTime, maxName, minTime, minName, avgTime, medTime, totTime⟩

/-- `dumpServiceDeletionResults`. -/
def dumpServiceDeletionResults (deletionTimes : List ObjectFinishTime) : Option Report := do
  let deletionTimes := SortTimes deletionTimes
  let (maxName, maxTime) ← GetMaxTime deletionTimes
  let (minName, minTime) ← GetMinTime deletionTimes
  let avgTime ← GetAvgTime deletionTimes
  let medTime ← GetMedianTime deletionTimes
  let totTime ← GetTotalTime deletionTimes
  pure ⟨deletionTimes.length, maxTime, maxName, minTime, minName, avgTime, medTime, totTime⟩

/-! ## `pkg/timer/svc/svc.go`: the timer and its informer callbacks -/

/-- The fields of a `v1.Event` the event callback reads:
`event.InvolvedObject.Name`, `event.Reason`, `event.CreationTimestamp.Time`. -/
structure Event where
  InvolvedObjectName : String
  Reason : String
  CreationTimestamp : Int
deriving DecidableEq, Repr

/-- One entry of `Status.LoadBalancer.Ingress`. -/
structure LoadBalancerIngress where
  IP : String
deriving DecidableEq, Repr

/-- The fields of a `v1.Service` the service callback reads: `Name`,
`ObjectMeta.CreationTimestamp.Time`, `Status.LoadBalancer.Ingress`. -/
structure Service where
  Name : String
  CreationTimestamp : Int
  Ingress : List LoadBalancerIngress
deriving DecidableEq, Repr

/-- The `interface{}` value an informer hands to a callback; the callbacks
tell the cases apart with the type assertions `obj.(*v1.Event)` and
`obj.(*v1.Service)`. -/
inductive Obj where
  | event (e : Event)
  | service (s : Service)
  | other
deriving DecidableEq, Repr

/-- `ServiceTimer`, without the two Kubernetes clients and the `signal`
channel. -/
structure ServiceTimer where
  DefinitionFile : String
  SvcName : String
  SvcNamespace : String
  StartedEventReason : String
  FinishedEventReason : String
  Count : Int
  Mode : String
  processingServices : String → Option Bool
  finishTimes : List ObjectFinishTime
  svcNameToTimesMap : String → Option ObjectFinishTime

/-- `NewServiceTimer`: both maps empty, nothing sent yet. -/
def NewServiceTimer (definitionFile svcName svcNamespace startedEventReason
    finishedEventReason : String) (count : Int) (mode : String) : ServiceTimer :=
  { DefinitionFile := definitionFile
    SvcName := svcName
    SvcNamespace := svcNamespace
    StartedEventReason := startedEventReason
    FinishedEventReason := finishedEventReason
    Count := count
    Mode := mode
    processingServices := fun _ => none
    finishTimes := []
    svcNameToTimesMap := fun _ => none }

/-- The map assignment `m[k] = &v`. -/
def mapSet {β : Type} (m : String → Option β) (k : String) (v : β) : String → Option β :=
  fun key => if key = k then some v else m key

/-- The statement `st.processingServices[name] = to.BoolPtr(false)` of
`handleCreate` and `handleDelete`. -/
def registerName (st : ServiceTimer) (name : String) : ServiceTimer :=
  { st with processingServices := mapSet st.processingServices name false }

/-- `AddFunc` of `setupAndRunEventsInformer(started, finished)`.  The library
function `strings.EqualFold` is the parameter `EqualFold`.  The result is
`none` where the Go callback dereferences a nil `*ObjectFinishTime`. -/
def AddFunc (EqualFold : String → String → Bool) (started finished : String)
    (st : ServiceTimer) (obj : Obj) : Option ServiceTimer :=
  match obj with
  | .event event =>
    match st.processingServices event.InvolvedObjectName with
    | none => some st
    | some done =>
      if !done then
        if EqualFold event.Reason started then
          if st.svcNameToTimesMap event.InvolvedObjectName = none then
            some { st with
              svcNameToTimesMap := mapSet st.svcNameToTimesMap event.InvolvedObjectName
                ⟨event.InvolvedObjectName, event.CreationTimestamp, 0⟩ }
          else some st
        else if EqualFold event.Reason finished then
          match st.svcNameToTimesMap event.InvolvedObjectName with
          | none => none
          | some times =>
            let times := { times with Finished := event.CreationTimestamp }
            some { st with
              svcNameToTimesMap := mapSet st.svcNameToTimesMap event.InvolvedObjectName times
              finishTimes := st.finishTimes ++ [times]
              processingServices := mapSet st.processingServices event.InvolvedObjectName true }
        else some st
      else some st
  | _ => some st

/-- The expression `svc.Status.LoadBalancer.Ingress[0].IP`: a run-time failure
on an empty slice. -/
def firstIngressIP (svc : Service) : Option String := do
  let ingress ← svc.Ingress[0]?
  pure ingress.IP

/-- `UpdateFunc` of `setupAndRunServicesInformer`; `now` is the value of
`time.Now()`.  The operators `||` and `&&` evaluate their right operand only
when the left one does not decide the result. -/
def UpdateFunc (now : Int) (st : ServiceTimer) (oldObj newObj : Obj) : Option ServiceTimer :=
  match oldObj, newObj with
  | .service oldSvc, .service newSvc => do
    let hadNone ←
      if oldSvc.Ingress.length = 0 then pure true
      else do
        let ip ← firstIngressIP oldSvc
        pure (ip == "")
    let hasOne ←
      if hadNone then
        if newSvc.Ingress.length > 0 then do
          let ip ← firstIngressIP newSvc
          pure (ip != "")
        else pure false
      else pure false
    if hasOne then
      let t0 := newSvc.CreationTimestamp
      let t1 := now
      let _ ← firstIngressIP newSvc
      pure { st with finishTimes := st.finishTimes ++ [⟨newSvc.Name, t0, t1⟩] }
    else pure st
  | _, _ => pure st

/-! ## `pkg/timer/svc/svc.go`: validation

A Go `error` result is an `Except String Unit`: `.ok ()` is the nil error,
`.error msg` an error with that message.  `ioutil.ReadFile` is the parameter
`ReadFile`, from a path to the contents of the file or the error of the read;
`strings.EqualFold` is the parameter `EqualFold`. -/

/-- `strings.Contains`: `substr` occurs in `s`. -/
def Contains (s substr : String) : Bool :=
  s.data.tails.any (fun rest => substr.data.isPrefixOf rest)

/-- `validateCount`. -/
def validateCount (ReadFile : String → Except String String) (st : ServiceTimer) :
    Except String Unit :=
  if st.Count ≤ 0 then
    .error ("provided count " ++ toString st.Count ++ " is invalid")
  else if st.Count > 1 then
    match ReadFile st.DefinitionFile with
    | .error err => .error ("error reading service definition file: " ++ err)
    | .ok svcBytes =>
      if !Contains svcBytes "generateName" then
        .error "metadata.GenerateName is required for creating multiple services"
      else .ok ()
  else .ok ()

/-- `validateMsg`. -/
def validateMsg (st : ServiceTimer) : Except String Unit :=
  if st.StartedEventReason != "" && st.FinishedEventReason == "" then
    .error "finished event reason is required"
  else if st.StartedEventReason == "" && st.FinishedEventReason != "" then
    .error "started event reason is required"
  else .ok ()

/-- `Validate`. -/
def Validate (EqualFold : String → String → Bool) (ReadFile : String → Except String String)
    (st : ServiceTimer) : Except String Unit :=
  if (EqualFold st.Mode ServiceTimerModeCreate || EqualFold st.Mode ServiceTimerModeCreateAsync)
      && st.DefinitionFile == "" then
    .error "definition file is required"
  else if EqualFold st.Mode ServiceTimerModeDelete && st.SvcName == "" then
    .error "service name is required for delete mode"
  else if (EqualFold st.Mode ServiceTimerModeDelete || EqualFold st.Mode ServiceTimerModeDeleteAll)
      && (st.StartedEventReason == "" || st.FinishedEventReason == "") then
    .error "started and finished event reasons are required"
  else
    match validateCount ReadFile st with
    | .error err => .error err
    | .ok _ =>
      match validateMsg st with
      | .error err => .error err
      | .ok _ => .ok ()

/-- A file system for examples: `svc.yaml` holds a definition with a fixed
name, `gen.yaml` one with a `generateName`, `fixed.yaml` one with a fixed name
and a YAML comment that mentions the word; no other file exists. -/
def sampleReadFile (path : String) : Except String String :=
  if path = "svc.yaml" then .ok "kind: Service metadata: name: lb"
  else if path = "gen.yaml" then .ok "kind: Service metadata: generateName: lb-"
  else if path = "fixed.yaml" then
    .ok "kind: Service\nmetadata:\n  name: lb # fixed name, generateName not used\n"
  else .error "no such file or directory"

/-- What the event-based engine receives over its lifetime: a registration by
the coordinator, or a notification delivered to `AddFunc`. -/
inductive Input where
  | register (name : String)
  | notify (obj : Obj)
deriving DecidableEq, Repr

/-- One input of the event-based engine. -/
def eventsStep (EqualFold : String → String → Bool) (started finished : String)
    (st : ServiceTimer) : Input → Option ServiceTimer
  | .register name => some (registerName st name)
  | .notify obj => AddFunc EqualFold started finished st obj

/-- A whole input sequence.  The run stops at the first run-time failure; the
result is the last state reached and whether the process failed. -/
def eventsRun (EqualFold : String → String → Bool) (started finished : String) :
    ServiceTimer → List Input → ServiceTimer × Bool
  | st, [] => (st, false)
  | st, i :: rest =>
    match eventsStep EqualFold started finished st i with
    | some next => eventsRun EqualFold started finished next rest
    | none => (st, true)

/-- The records carrying `name` among those sent on `finishTimes`. -/
def completions (st : ServiceTimer) (name : String) : List ObjectFinishTime :=
  st.finishTimes.filter (fun r => r.Name == name)

/-- Every registration of `name` in the sequence happens while no record
carrying `name` has been sent yet. -/
def registersBeforeCompletion (EqualFold : String → String → Bool) (started finished : String)
    (name : String) : ServiceTimer → List Input → Bool
  | _, [] => true
  | st, i :: rest =>
    (match i with
      | .register k => k != name || (completions st name).isEmpty
      | .notify _ => true) &&
    (match eventsStep EqualFold started finished st i with
      | some next => registersBeforeCompletion EqualFold started finished name next rest
      | none => true)

/-- A concrete `EqualFold` for examples: equality up to the case of ASCII
letters. -/
def asciiEqualFold (s t : String) : Bool :=
  s.data.map Char.toLower == t.data.map Char.toLower

/-- One second, in nanoseconds. -/
def second : Int := 1000000000

/-- A timer as the command line builds it for `create` with both reasons set. -/
def demoTimer : ServiceTimer :=
  NewServiceTimer "svc.yaml" "" "default" "EnsuringLoadBalancer" "EnsuredLoadBalancer" 1
    "ServiceTimerModeCreate"

/-- A timer as the command line builds it for `create` with no reason set: the
service callback is the one in use. -/
def statusTimer : ServiceTimer :=
  NewServiceTimer "svc.yaml" "" "default" "" "" 1 "ServiceTimerModeCreate"

/-- Three records with durations `5s`, `7s` and `3s`, in order of issuance. -/
def sampleTimes : List ObjectFinishTime :=
  [⟨"a", 0, 5 * second⟩, ⟨"b", 0, 7 * second⟩, ⟨"c", 0, 3 * second⟩]

/-- Four records, the two in the middle tied on their duration of `5s`. -/
def tiedTimes : List ObjectFinishTime :=
  [⟨"a", 0, 1 * second⟩, ⟨"b", 0, 5 * second⟩, ⟨"c", 0, 5 * second⟩, ⟨"d", 0, 9 * second⟩]

/-- The records of `tiedTimes` arriving in the opposite order. -/
def tiedTimesReversed : List ObjectFinishTime :=
  [⟨"d", 0, 9 * second⟩, ⟨"c", 0, 5 * second⟩, ⟨"b", 0, 5 * second⟩, ⟨"a", 0, 1 * second⟩]

/-! ## Predicates used in the statements -/

/-- Descending by duration: the shape of the sorted prefix, read back to
front. -/
def Descending (l : List ObjectFinishTime) : Prop :=
  l.Pairwise (fun a b => duration b ≤ duration a)

/-- Ascending by duration. -/
def Ascending (l : List ObjectFinishTime) : Prop :=
  l.Pairwise (fun a b => duration a ≤ duration b)

/-- Every entry of `svcNameToTimesMap` is stored under its own name. -/
def Keyed (st : ServiceTimer) : Prop :=
  ∀ k r, st.svcNameToTimesMap k = some r → r.Name = k

/-- The resource lacks an externally routable identifier, in the words of the
specification: it has no load-balancer ingress entry, or its first entry has
an empty IP. -/
def lacksExternalIP : List LoadBalancerIngress → Bool
  | [] => true
  | first :: _ => first.IP == ""

/-- The rising edge of the specification: the resource lacked an externally
routable identifier before the update and has one after. -/
def risingEdge (oldSvc newSvc : Service) : Bool :=
  lacksExternalIP oldSvc.Ingress && !lacksExternalIP newSvc.Ingress

/-- The registry entry, the start-time entry and the records of `name` all
have the given values, and the start-time map is keyed. -/
def Frame (name : String) (flag : Option Bool) (entry : Option ObjectFinishTime)
    (sent : List ObjectFinishTime) (st : ServiceTimer) : Prop :=
  Keyed st ∧ st.processingServices name = flag ∧ st.svcNameToTimesMap name = entry ∧
    completions st name = sent

/-- At most one record of `name` was sent, and once it was sent the name is
marked as done. -/
def AtMostOnce (name : String) (st : ServiceTimer) : Prop :=
  Keyed st ∧ (completions st name = [] ∨
    ((completions st name).length = 1 ∧ st.processingServices name = some true))

/-! ## Sorting -/

theorem insertBack_perm {α : Type} (less : α → α → Bool) (x : α) (l : List α) :
    (insertBack less x l).Perm (x :: l) := by
  induction l with
  | nil => exact List.Perm.refl _
  | cons y ys ih =>
    simp only [insertBack]
    split
    · exact (List.Perm.cons y ih).trans (List.Perm.swap x y ys)
    · exact List.Perm.refl _

theorem foldl_insertBack_perm {α : Type} (less : α → α → Bool) (l : List α) :
    ∀ acc : List α, (l.foldl (fun backwards x => insertBack less x backwards) acc).Perm (l ++ acc) := by
  induction l with
  | nil => intro acc; exact List.Perm.refl _
  | cons x xs ih =>
    intro acc
    simp only [List.foldl_cons, List.cons_append]
    exact (ih _).trans ((List.Perm.append_left xs (insertBack_perm less x acc)).trans List.perm_middle)

theorem sortSlice_perm {α : Type} (less : α → α → Bool) (l : List α) :
    (sortSlice less l).Perm l := by
  unfold sortSlice
  have h := foldl_insertBack_perm less l []
  rw [List.append_nil] at h
  exact (List.reverse_perm _).trans h

theorem insertBack_descending (x : ObjectFinishTime) (l : List ObjectFinishTime)
    (h : Descending l) :
    Descending (insertBack (fun a b => decide (duration a < duration b)) x l) := by
  induction l with
  | nil => simp [insertBack, Descending]
  | cons y ys ih =>
    have hy := List.pairwise_cons.mp h
    simp only [insertBack]
    split
    · rename_i hlt
      have hlt : duration x < duration y := by simpa using hlt
      refine List.pairwise_cons.mpr ⟨?_, ih hy.2⟩
      intro z hz
      have hz := (insertBack_perm _ x ys).subset hz
      rcases List.mem_cons.mp hz with rfl | hz
      · exact le_of_lt hlt
      · exact hy.1 z hz
    · rename_i hlt
      have hle : duration y ≤ duration x := by simpa using hlt
      refine List.pairwise_cons.mpr ⟨?_, h⟩
      intro z hz
      rcases List.mem_cons.mp hz with rfl | hz
      · exact hle
      · exact le_trans (hy.1 z hz) hle

theorem foldl_insertBack_descending (l : List ObjectFinishTime) :
    ∀ acc : List ObjectFinishTime, Descending acc →
      Descending (l.foldl
        (fun backwards x => insertBack (fun a b => decide (duration a < duration b)) x backwards)
        acc) := by
  induction l with
  | nil => intro acc h; exact h
  | cons x xs ih =>
    intro acc h
    simp only [List.foldl_cons]
    exact ih _ (insertBack_descending x acc h)

theorem SortTimes_perm (l : List ObjectFinishTime) : (SortTimes l).Perm l :=
  sortSlice_perm _ l

theorem SortTimes_ascending (l : List ObjectFinishTime) : Ascending (SortTimes l) := by
  unfold SortTimes sortSlice Ascending
  rw [List.pairwise_reverse]
  exact foldl_insertBack_descending l [] List.Pairwise.nil

theorem SortTimes_length (l : List ObjectFinishTime) : (SortTimes l).length = l.length :=
  (SortTimes_perm l).length_eq

/-! ## Statistics of a list seen through its durations -/

theorem getElem?_duration_eq {l₁ l₂ : List ObjectFinishTime}
    (h : l₁.map duration = l₂.map duration) (i : Nat) :
    (l₁[i]?).map duration = (l₂[i]?).map duration := by
  have := congrArg (fun l => l[i]?) h
  simpa [List.getElem?_map] using this

theorem sumDurations_eq_foldl (l : List ObjectFinishTime) :
    sumDurations l = (l.map duration).foldl durAdd 0 := by
  unfold sumDurations
  rw [List.foldl_map]

theorem length_eq_of_durations {l₁ l₂ : List ObjectFinishTime}
    (h : l₁.map duration = l₂.map duration) : l₁.length = l₂.length := by
  have := congrArg List.length h
  simpa using this

theorem GetMinTime_duration_congr {l₁ l₂ : List ObjectFinishTime}
    (h : l₁.map duration = l₂.map duration) :
    (GetMinTime l₁).map Prod.snd = (GetMinTime l₂).map Prod.snd := by
  have hl := length_eq_of_durations h
  have h0 := getElem?_duration_eq h 0
  unfold GetMinTime
  rw [hl]
  split
  · rfl
  · cases h1 : l₁[0]? <;> cases h2 : l₂[0]? <;> simp_all

theorem GetMaxTime_duration_congr {l₁ l₂ : List ObjectFinishTime}
    (h : l₁.map duration = l₂.map duration) :
    (GetMaxTime l₁).map Prod.snd = (GetMaxTime l₂).map Prod.snd := by
  have hl := length_eq_of_durations h
  have h0 := getElem?_duration_eq h (l₂.length - 1)
  unfold GetMaxTime
  rw [hl]
  split
  · rfl
  · cases h1 : l₁[l₂.length - 1]? <;> cases h2 : l₂[l₂.length - 1]? <;> simp_all

theorem GetAvgTime_duration_congr {l₁ l₂ : List ObjectFinishTime}
    (h : l₁.map duration = l₂.map duration) : GetAvgTime l₁ = GetAvgTime l₂ := by
  have hl := length_eq_of_durations h
  unfold GetAvgTime
  rw [sumDurations_eq_foldl, sumDurations_eq_foldl, h, hl]

theorem GetTotalTime_duration_congr {l₁ l₂ : List ObjectFinishTime}
    (h : l₁.map duration = l₂.map duration) : GetTotalTime l₁ = GetTotalTime l₂ := by
  unfold GetTotalTime
  rw [sumDurations_eq_foldl, sumDurations_eq_foldl, h]

theorem GetMedianTime_duration_congr {l₁ l₂ : List ObjectFinishTime}
    (h : l₁.map duration = l₂.map duration) : GetMedianTime l₁ = GetMedianTime l₂ := by
  have hl := length_eq_of_durations h
  have h0 := getElem?_duration_eq h (l₂.length / 2)
  have h1 := getElem?_duration_eq h (l₂.length / 2 + 1)
  unfold GetMedianTime
  rw [hl]
  split
  · rfl
  · split
    · cases e1 : l₁[l₂.length / 2]? <;> cases e2 : l₂[l₂.length / 2]? <;> simp_all
    · cases e1 : l₁[l₂.length / 2]? <;> cases e2 : l₂[l₂.length / 2]? <;>
        cases e3 : l₁[l₂.length / 2 + 1]? <;> cases e4 : l₂[l₂.length / 2 + 1]? <;> simp_all

/-- Two ascending arrangements of the same records show the same durations
position by position. -/
theorem durations_eq_of_perm_ascending {l₁ l₂ : List ObjectFinishTime}
    (hp : l₁.Perm l₂) (h₁ : Ascending l₁) (h₂ : Ascending l₂) :
    l₁.map duration = l₂.map duration := by
  refine @List.Perm.eq_of_sorted Int (fun a b => a ≤ b) _ _ ?_ ?_ ?_ (hp.map duration)
  · intro a b _ _ hab hba
    exact le_antisymm hab hba
  · exact List.pairwise_map.mpr h₁
  · exact List.pairwise_map.mpr h₂

/-- Where records of equal duration carry equal names, two ascending
arrangements of the same records also show the same names position by
position. -/
theorem names_eq_of_perm_ascending {l₁ l₂ : List ObjectFinishTime}
    (hp : l₁.Perm l₂) (h₁ : Ascending l₁) (h₂ : Ascending l₂)
    (htie : ∀ a ∈ l₁, ∀ b ∈ l₁, duration a = duration b → a.Name = b.Name) :
    l₁.map (fun r => (r.Name, duration r)) = l₂.map (fun r => (r.Name, duration r)) := by
  refine @List.Perm.eq_of_sorted (String × Int) (fun p q => p.2 ≤ q.2) _ _ ?_ ?_ ?_
    (hp.map (fun r => (r.Name, duration r)))
  · intro p q hpm hqm hpq hqp
    obtain ⟨a, ha, rfl⟩ := List.mem_map.mp hpm
    obtain ⟨b, hb, rfl⟩ := List.mem_map.mp hqm
    have hd : duration a = duration b := le_antisymm hpq hqp
    have hn := htie a ha b (hp.symm.subset hb) hd
    simp [hd, hn]
  · exact List.pairwise_map.mpr h₁
  · exact List.pairwise_map.mpr h₂

theorem GetMinTime_eq_getElem? (l : List ObjectFinishTime) :
    GetMinTime l =
      if l.length = 0 then some ("", 0)
      else ((l.map (fun r => (r.Name, duration r)))[0]?) := by
  unfold GetMinTime
  split
  · rfl
  · cases h : l[0]? <;> simp [List.getElem?_map, h]

theorem GetMaxTime_eq_getElem? (l : List ObjectFinishTime) :
    GetMaxTime l =
      if l.length = 0 then some ("", 0)
      else ((l.map (fun r => (r.Name, duration r)))[l.length - 1]?) := by
  unfold GetMaxTime
  split
  · rfl
  · cases h : l[l.length - 1]? <;> simp [List.getElem?_map, h]

theorem GetMinTime_cons (x : ObjectFinishTime) (l : List ObjectFinishTime) :
    GetMinTime (x :: l) = some (x.Name, duration x) := by
  simp [GetMinTime]

theorem GetMaxTime_of_getLast? {l : List ObjectFinishTime} {x : ObjectFinishTime}
    (h : l.getLast? = some x) : GetMaxTime l = some (x.Name, duration x) := by
  have hne : l.length ≠ 0 := by
    intro h0
    rw [List.length_eq_zero.mp h0] at h
    simp at h
  rw [List.getLast?_eq_getElem?] at h
  simp [GetMaxTime, hne, h]

theorem le_getLast_of_ascending {l : List ObjectFinishTime} {x : ObjectFinishTime}
    (hasc : Ascending l) (h : l.getLast? = some x) :
    ∀ r ∈ l, duration r ≤ duration x := by
  have hne : l ≠ [] := by
    intro h0
    rw [h0] at h
    simp at h
  have hx : l.getLast hne = x := by
    rw [List.getLast?_eq_getLast l hne] at h
    exact Option.some.inj h
  have hsplit : l.dropLast ++ [x] = l := by
    rw [← hx]
    exact List.dropLast_append_getLast hne
  intro r hr
  rw [← hsplit] at hr hasc
  rcases List.mem_append.mp hr with hr | hr
  · exact (List.pairwise_append.mp hasc).2.2 r hr x (List.mem_singleton_self x)
  · rw [List.mem_singleton.mp hr]

/-- On a non-empty list, `GetMinTime` after `Sort` reports a record of the
list whose duration no record of the list undercuts. -/
theorem GetMinTime_SortTimes_attains (l : List ObjectFinishTime) (h : l ≠ []) :
    ∃ x ∈ l, GetMinTime (SortTimes l) = some (x.Name, duration x) ∧
      ∀ r ∈ l, duration x ≤ duration r := by
  have hperm := SortTimes_perm l
  have hasc := SortTimes_ascending l
  have hne : SortTimes l ≠ [] := fun h0 => h (by rw [h0] at hperm; exact hperm.symm.eq_nil)
  obtain ⟨x, rest, hs⟩ := List.exists_cons_of_ne_nil hne
  refine ⟨x, hperm.subset (by rw [hs]; exact List.mem_cons_self _ _), ?_, ?_⟩
  · rw [hs]; exact GetMinTime_cons x rest
  · intro r hr
    have hr' : r ∈ SortTimes l := hperm.symm.subset hr
    rw [hs] at hr' hasc
    rcases List.mem_cons.mp hr' with rfl | hr'
    · exact le_refl _
    · exact (List.pairwise_cons.mp hasc).1 r hr'

/-- On a non-empty list, `GetMaxTime` after `Sort` reports a record of the
list whose duration no record of the list exceeds. -/
theorem GetMaxTime_SortTimes_attains (l : List ObjectFinishTime) (h : l ≠ []) :
    ∃ x ∈ l, GetMaxTime (SortTimes l) = some (x.Name, duration x) ∧
      ∀ r ∈ l, duration r ≤ duration x := by
  have hperm := SortTimes_perm l
  have hasc := SortTimes_ascending l
  have hne : SortTimes l ≠ [] := fun h0 => h (by rw [h0] at hperm; exact hperm.symm.eq_nil)
  have hlast : (SortTimes l).getLast? = some ((SortTimes l).getLast hne) :=
    List.getLast?_eq_getLast _ hne
  refine ⟨(SortTimes l).getLast hne, hperm.subset (List.getLast_mem hne),
    GetMaxTime_of_getLast? hlast, ?_⟩
  intro r hr
  exact le_getLast_of_ascending hasc hlast r (hperm.symm.subset hr)

theorem tiedTimes_perm_reversed : tiedTimes.Perm tiedTimesReversed := by
  have h : tiedTimesReversed.reverse = tiedTimes := by decide
  rw [← h]
  exact List.reverse_perm tiedTimesReversed

/-! ## Where the report functions fail -/

theorem GetMinTime_isSome (l : List ObjectFinishTime) : ∃ v, GetMinTime l = some v := by
  cases l with
  | nil => exact ⟨("", 0), rfl⟩
  | cons x xs => exact ⟨_, GetMinTime_cons x xs⟩

theorem GetMaxTime_isSome (l : List ObjectFinishTime) : ∃ v, GetMaxTime l = some v := by
  by_cases h : l.length = 0
  · exact ⟨("", 0), by simp [GetMaxTime, h]⟩
  · have hlt : l.length - 1 < l.length := by omega
    exact ⟨_, by simp [GetMaxTime, h, List.getElem?_eq_getElem hlt]; rfl⟩

theorem GetAvgTime_isSome (l : List ObjectFinishTime) : ∃ v, GetAvgTime l = some v := by
  by_cases h : l.length = 0
  · exact ⟨0, by simp [GetAvgTime, h]⟩
  · have hne : (l.length : Int) ≠ 0 := by exact_mod_cast h
    exact ⟨wrap64 (Int.tdiv (sumDurations l) l.length),
      by simp only [GetAvgTime, h, ↓reduceIte, durDiv, hne]⟩

/-- `GetMedianTime` fails exactly on the lists of one record. -/
theorem GetMedianTime_eq_none_iff (l : List ObjectFinishTime) :
    GetMedianTime l = none ↔ l.length = 1 := by
  unfold GetMedianTime
  by_cases h0 : l.length = 0
  · simp [h0]
  · by_cases heven : l.length % 2 = 0
    · have hlt : l.length / 2 < l.length := by omega
      have hne : l.length ≠ 1 := by omega
      simp [h0, heven, List.getElem?_eq_getElem hlt, hne]
    · by_cases h1 : l.length = 1
      · have hnone : l[1]? = none := List.getElem?_eq_none (by omega)
        simp [h1, hnone]
      · have hlt : l.length / 2 < l.length := by omega
        have hlt2 : l.length / 2 + 1 < l.length := by omega
        simp [h0, heven, List.getElem?_eq_getElem hlt, List.getElem?_eq_getElem hlt2, h1, durDiv]

/-- The report on created services is produced for every batch except those
of exactly one record. -/
theorem dumpServiceCreationResults_eq_none_iff (l : List ObjectFinishTime) :
    dumpServiceCreationResults l = none ↔ l.length = 1 := by
  obtain ⟨mx, hmx⟩ := GetMaxTime_isSome (SortTimes l)
  obtain ⟨mn, hmn⟩ := GetMinTime_isSome (SortTimes l)
  obtain ⟨av, hav⟩ := GetAvgTime_isSome (SortTimes l)
  rw [← SortTimes_length l, ← GetMedianTime_eq_none_iff]
  cases hmed : GetMedianTime (SortTimes l) <;>
    simp [dumpServiceCreationResults, hmx, hmn, hav, hmed, GetTotalTime]

/-- The report on deleted services is produced for every batch except those
of exactly one record. -/
theorem dumpServiceDeletionResults_eq_none_iff (l : List ObjectFinishTime) :
    dumpServiceDeletionResults l = none ↔ l.length = 1 := by
  obtain ⟨mx, hmx⟩ := GetMaxTime_isSome (SortTimes l)
  obtain ⟨mn, hmn⟩ := GetMinTime_isSome (SortTimes l)
  obtain ⟨av, hav⟩ := GetAvgTime_isSome (SortTimes l)
  rw [← SortTimes_length l, ← GetMedianTime_eq_none_iff]
  cases hmed : GetMedianTime (SortTimes l) <;>
    simp [dumpServiceDeletionResults, hmx, hmn, hav, hmed, GetTotalTime]

/-! ## Claims on the statistics -/

/-- C3 (failing inputs).  `GetMedianTime` is not the standard median: it fails
on the one-element list `{10s}`, returns `20s` (the upper of the two central
elements, not their average `15s`) on `{10s, 20s}`, and `25s` (the average of
the middle element and its successor, not the middle element `20s`) on
`{10s, 20s, 30s}`. -/
theorem GetMedianTime_swapped_branches :
    GetMedianTime [⟨"a", 0, 10 * second⟩] = none ∧
    GetMedianTime [⟨"a", 0, 10 * second⟩, ⟨"b", 0, 20 * second⟩] = some (20 * second) ∧
    GetMedianTime [⟨"a", 0, 10 * second⟩, ⟨"b", 0, 20 * second⟩, ⟨"c", 0, 30 * second⟩]
      = some (25 * second) := by
  decide

/-- C4 (failing input).  On every list of exactly one record, the batch the
default count of `1` collects, both report functions stop with an index out of
range in `GetMedianTime`: no report is produced. -/
theorem dump_fails_on_single_record (r : ObjectFinishTime) :
    dumpServiceCreationResults [r] = none ∧ dumpServiceDeletionResults [r] = none := by
  constructor <;>
    simp [dumpServiceCreationResults, dumpServiceDeletionResults, SortTimes, sortSlice,
      insertBack, GetMaxTime, GetMinTime, GetAvgTime, GetMedianTime, durDiv]

/-- C5 (counterexample).  Two records of equal duration `5` named `a` and `b`:
the two arrival orders are permutations of each other, yet the reported
minimum carries the name `a` for one and `b` for the other, and likewise the
maximum. -/
theorem report_names_depend_on_arrival_order :
    ([⟨"a", 0, 5⟩, ⟨"b", 0, 5⟩] : List ObjectFinishTime).Perm [⟨"b", 0, 5⟩, ⟨"a", 0, 5⟩] ∧
    GetMinTime (SortTimes [⟨"a", 0, 5⟩, ⟨"b", 0, 5⟩]) = some ("a", 5) ∧
    GetMinTime (SortTimes [⟨"b", 0, 5⟩, ⟨"a", 0, 5⟩]) = some ("b", 5) ∧
    GetMaxTime (SortTimes [⟨"a", 0, 5⟩, ⟨"b", 0, 5⟩]) = some ("b", 5) ∧
    GetMaxTime (SortTimes [⟨"b", 0, 5⟩, ⟨"a", 0, 5⟩]) = some ("a", 5) :=
  ⟨List.Perm.swap _ _ _, by decide, by decide, by decide, by decide⟩

/-- C5 (amended).  For a list of records and any permutation of it, `Sort`
followed by the five statistics gives the same minimum duration, the same
maximum duration, the same average, the same result of `GetMedianTime` and the
same total; the name reported with the minimum is the same for both orderings
whenever the records attaining the minimum duration all carry one name, and
the name reported with the maximum whenever the records attaining the maximum
duration do. -/
theorem report_order_independent (l₁ l₂ : List ObjectFinishTime) (h : l₁.Perm l₂) :
    (GetMinTime (SortTimes l₁)).map Prod.snd = (GetMinTime (SortTimes l₂)).map Prod.snd ∧
    (GetMaxTime (SortTimes l₁)).map Prod.snd = (GetMaxTime (SortTimes l₂)).map Prod.snd ∧
    GetAvgTime (SortTimes l₁) = GetAvgTime (SortTimes l₂) ∧
    GetMedianTime (SortTimes l₁) = GetMedianTime (SortTimes l₂) ∧
    GetTotalTime (SortTimes l₁) = GetTotalTime (SortTimes l₂) ∧
    ((∀ a ∈ l₁, ∀ b ∈ l₁, (∀ r ∈ l₁, duration a ≤ duration r) →
        (∀ r ∈ l₁, duration b ≤ duration r) → a.Name = b.Name) →
      GetMinTime (SortTimes l₁) = GetMinTime (SortTimes l₂)) ∧
    ((∀ a ∈ l₁, ∀ b ∈ l₁, (∀ r ∈ l₁, duration r ≤ duration a) →
        (∀ r ∈ l₁, duration r ≤ duration b) → a.Name = b.Name) →
      GetMaxTime (SortTimes l₁) = GetMaxTime (SortTimes l₂)) := by
  have hp : (SortTimes l₁).Perm (SortTimes l₂) :=
    ((SortTimes_perm l₁).trans h).trans (SortTimes_perm l₂).symm
  have hd := durations_eq_of_perm_ascending hp (SortTimes_ascending l₁) (SortTimes_ascending l₂)
  refine ⟨GetMinTime_duration_congr hd, GetMaxTime_duration_congr hd,
    GetAvgTime_duration_congr hd, GetMedianTime_duration_congr hd,
    GetTotalTime_duration_congr hd, ?_, ?_⟩
  · intro htie
    by_cases hne : l₁ = []
    · subst hne
      rw [h.nil_eq]
    · have hne₂ : l₂ ≠ [] := fun h0 => hne (by rw [h0] at h; exact h.eq_nil)
      obtain ⟨x, hx, hxmin, hxle⟩ := GetMinTime_SortTimes_attains l₁ hne
      obtain ⟨y, hy, hymin, hyle⟩ := GetMinTime_SortTimes_attains l₂ hne₂
      have hy₁ : y ∈ l₁ := h.symm.subset hy
      have hyle₁ : ∀ r ∈ l₁, duration y ≤ duration r := fun r hr => hyle r (h.subset hr)
      have hname := htie x hx y hy₁ hxle hyle₁
      have hdur : duration x = duration y := le_antisymm (hxle y hy₁) (hyle₁ x hx)
      rw [hxmin, hymin, hname, hdur]
  · intro htie
    by_cases hne : l₁ = []
    · subst hne
      rw [h.nil_eq]
    · have hne₂ : l₂ ≠ [] := fun h0 => hne (by rw [h0] at h; exact h.eq_nil)
      obtain ⟨x, hx, hxmax, hxge⟩ := GetMaxTime_SortTimes_attains l₁ hne
      obtain ⟨y, hy, hymax, hyge⟩ := GetMaxTime_SortTimes_attains l₂ hne₂
      have hy₁ : y ∈ l₁ := h.symm.subset hy
      have hyge₁ : ∀ r ∈ l₁, duration r ≤ duration y := fun r hr => hyge r (h.subset hr)
      have hname := htie x hx y hy₁ hxge hyge₁
      have hdur : duration x = duration y := le_antisymm (hyge₁ x hx) (hxge y hy₁)
      rw [hxmax, hymax, hname, hdur]

/-- Witness of C5 (amended): four records, the two in the middle tied on
`5s`, arriving in two opposite orders.  One record alone attains the minimum
and one alone the maximum, so the whole report, names included, is the same
although the tied records end up in different positions. -/
theorem report_order_independent_witness :
    tiedTimes.Perm tiedTimesReversed ∧
    (GetMinTime (SortTimes tiedTimes)).map Prod.snd =
      (GetMinTime (SortTimes tiedTimesReversed)).map Prod.snd ∧
    (GetMaxTime (SortTimes tiedTimes)).map Prod.snd =
      (GetMaxTime (SortTimes tiedTimesReversed)).map Prod.snd ∧
    GetAvgTime (SortTimes tiedTimes) = GetAvgTime (SortTimes tiedTimesReversed) ∧
    GetMedianTime (SortTimes tiedTimes) = GetMedianTime (SortTimes tiedTimesReversed) ∧
    GetTotalTime (SortTimes tiedTimes) = GetTotalTime (SortTimes tiedTimesReversed) ∧
    GetMinTime (SortTimes tiedTimes) = GetMinTime (SortTimes tiedTimesReversed) ∧
    GetMaxTime (SortTimes tiedTimes) = GetMaxTime (SortTimes tiedTimesReversed) ∧
    SortTimes tiedTimes ≠ SortTimes tiedTimesReversed :=
  ⟨tiedTimes_perm_reversed,
    (report_order_independent tiedTimes tiedTimesReversed
      tiedTimes_perm_reversed).1,
    (report_order_independent tiedTimes tiedTimesReversed
      tiedTimes_perm_reversed).2.1,
    (report_order_independent tiedTimes tiedTimesReversed
      tiedTimes_perm_reversed).2.2.1,
    (report_order_independent tiedTimes tiedTimesReversed
      tiedTimes_perm_reversed).2.2.2.1,
    (report_order_independent tiedTimes tiedTimesReversed
      tiedTimes_perm_reversed).2.2.2.2.1,
    (report_order_independent tiedTimes tiedTimesReversed
      tiedTimes_perm_reversed).2.2.2.2.2.1 (by decide),
    (report_order_independent tiedTimes tiedTimesReversed
      tiedTimes_perm_reversed).2.2.2.2.2.2 (by decide),
    by decide⟩

/-- C7.  For a non-empty list, `Sort` yields a permutation of the input in
ascending order of duration; `GetMinTime` and `GetMaxTime` return the name and
duration of its first and last element, which are records of the input, and
every record of the input has a duration between the two. -/
theorem SortTimes_min_max (l : List ObjectFinishTime) (h : l ≠ []) :
    (SortTimes l).Perm l ∧ Ascending (SortTimes l) ∧
    ∃ first last : ObjectFinishTime,
      (SortTimes l).head? = some first ∧ (SortTimes l).getLast? = some last ∧
      GetMinTime (SortTimes l) = some (first.Name, duration first) ∧
      GetMaxTime (SortTimes l) = some (last.Name, duration last) ∧
      first ∈ l ∧ last ∈ l ∧
      ∀ r ∈ l, duration first ≤ duration r ∧ duration r ≤ duration last := by
  have hperm := SortTimes_perm l
  have hasc := SortTimes_ascending l
  have hne : SortTimes l ≠ [] := by
    intro h0
    rw [h0] at hperm
    exact h hperm.symm.eq_nil
  refine ⟨hperm, hasc, ?_⟩
  obtain ⟨first, rest, hs⟩ := List.exists_cons_of_ne_nil hne
  have hlast : (SortTimes l).getLast? = some ((SortTimes l).getLast hne) :=
    List.getLast?_eq_getLast _ hne
  refine ⟨first, (SortTimes l).getLast hne, ?_, hlast, ?_, GetMaxTime_of_getLast? hlast,
    ?_, ?_, ?_⟩
  · rw [hs]; rfl
  · rw [hs]; exact GetMinTime_cons first rest
  · exact hperm.subset (by rw [hs]; exact List.mem_cons_self _ _)
  · exact hperm.subset (List.getLast_mem hne)
  · intro r hr
    have hr' : r ∈ SortTimes l := hperm.symm.subset hr
    refine ⟨?_, le_getLast_of_ascending hasc hlast r hr'⟩
    rw [hs] at hr' hasc
    rcases List.mem_cons.mp hr' with rfl | hr'
    · exact le_refl _
    · exact (List.pairwise_cons.mp hasc).1 r hr'

/-- Witness of C7: durations `5s`, `7s`, `3s`. -/
theorem SortTimes_min_max_witness :
    sampleTimes ≠ [] ∧
    ((SortTimes sampleTimes).Perm sampleTimes ∧ Ascending (SortTimes sampleTimes) ∧
      ∃ first last : ObjectFinishTime,
        (SortTimes sampleTimes).head? = some first ∧
        (SortTimes sampleTimes).getLast? = some last ∧
        GetMinTime (SortTimes sampleTimes) = some (first.Name, duration first) ∧
        GetMaxTime (SortTimes sampleTimes) = some (last.Name, duration last) ∧
        first ∈ sampleTimes ∧ last ∈ sampleTimes ∧
        ∀ r ∈ sampleTimes, duration first ≤ duration r ∧ duration r ≤ duration last) :=
  ⟨by decide, SortTimes_min_max sampleTimes (by decide)⟩

/-- C8.  On the empty list `GetMinTime` and `GetMaxTime` return the empty name
with a zero duration and `GetAvgTime` returns zero; none of them fails. -/
theorem statistics_of_empty :
    GetMinTime [] = some ("", 0) ∧ GetMaxTime [] = some ("", 0) ∧ GetAvgTime [] = some 0 := by
  decide

/-! ## The informer callbacks -/

theorem AddFunc_not_event (EqualFold : String → String → Bool) (started finished : String)
    (st : ServiceTimer) (obj : Obj) (h : ∀ e, obj ≠ .event e) :
    AddFunc EqualFold started finished st obj = some st := by
  cases obj with
  | event e => exact absurd rfl (h e)
  | service s => rfl
  | other => rfl

/-- The event callback leaves the timer as it is on an event whose subject is
not in `processingServices`. -/
theorem AddFunc_unregistered (EqualFold : String → String → Bool) (started finished : String)
    (st : ServiceTimer) (e : Event) (h : st.processingServices e.InvolvedObjectName = none) :
    AddFunc EqualFold started finished st (.event e) = some st := by
  simp [AddFunc, h]

theorem AddFunc_done (EqualFold : String → String → Bool) (started finished : String)
    (st : ServiceTimer) (e : Event) (h : st.processingServices e.InvolvedObjectName = some true) :
    AddFunc EqualFold started finished st (.event e) = some st := by
  simp [AddFunc, h]

theorem AddFunc_started (EqualFold : String → String → Bool) (started finished : String)
    (st : ServiceTimer) (e : Event)
    (hreg : st.processingServices e.InvolvedObjectName = some false)
    (hS : EqualFold e.Reason started = true) :
    AddFunc EqualFold started finished st (.event e) =
      if st.svcNameToTimesMap e.InvolvedObjectName = none then
        some { st with
          svcNameToTimesMap := mapSet st.svcNameToTimesMap e.InvolvedObjectName
            ⟨e.InvolvedObjectName, e.CreationTimestamp, 0⟩ }
      else some st := by
  simp [AddFunc, hreg, hS]

theorem AddFunc_finished (EqualFold : String → String → Bool) (started finished : String)
    (st : ServiceTimer) (e : Event) (times : ObjectFinishTime)
    (hreg : st.processingServices e.InvolvedObjectName = some false)
    (hS : EqualFold e.Reason started = false) (hF : EqualFold e.Reason finished = true)
    (hm : st.svcNameToTimesMap e.InvolvedObjectName = some times) :
    AddFunc EqualFold started finished st (.event e) =
      some { st with
        svcNameToTimesMap := mapSet st.svcNameToTimesMap e.InvolvedObjectName
          { times with Finished := e.CreationTimestamp }
        finishTimes := st.finishTimes ++ [{ times with Finished := e.CreationTimestamp }]
        processingServices := mapSet st.processingServices e.InvolvedObjectName true } := by
  simp [AddFunc, hreg, hS, hF, hm]

theorem AddFunc_neither (EqualFold : String → String → Bool) (started finished : String)
    (st : ServiceTimer) (e : Event)
    (hS : EqualFold e.Reason started = false) (hF : EqualFold e.Reason finished = false) :
    AddFunc EqualFold started finished st (.event e) = some st := by
  simp only [AddFunc]
  split
  · rfl
  · simp [hS, hF]

/-- The three ways the event callback can return. -/
theorem AddFunc_cases (EqualFold : String → String → Bool) (started finished : String)
    (st st' : ServiceTimer) (e : Event)
    (h : AddFunc EqualFold started finished st (.event e) = some st') :
    st' = st ∨
    (st.processingServices e.InvolvedObjectName = some false ∧
      st.svcNameToTimesMap e.InvolvedObjectName = none ∧
      st' = { st with
        svcNameToTimesMap := mapSet st.svcNameToTimesMap e.InvolvedObjectName
          ⟨e.InvolvedObjectName, e.CreationTimestamp, 0⟩ }) ∨
    (∃ times, st.processingServices e.InvolvedObjectName = some false ∧
      st.svcNameToTimesMap e.InvolvedObjectName = some times ∧
      st' = { st with
        svcNameToTimesMap := mapSet st.svcNameToTimesMap e.InvolvedObjectName
          { times with Finished := e.CreationTimestamp }
        finishTimes := st.finishTimes ++ [{ times with Finished := e.CreationTimestamp }]
        processingServices := mapSet st.processingServices e.InvolvedObjectName true }) := by
  cases hps : st.processingServices e.InvolvedObjectName with
  | none =>
    rw [AddFunc_unregistered _ _ _ _ _ hps] at h
    exact Or.inl (Option.some.inj h).symm
  | some done =>
    cases done with
    | true =>
      rw [AddFunc_done _ _ _ _ _ hps] at h
      exact Or.inl (Option.some.inj h).symm
    | false =>
      cases hS : EqualFold e.Reason started with
      | true =>
        rw [AddFunc_started _ _ _ _ _ hps hS] at h
        split at h
        · rename_i hm
          exact Or.inr (Or.inl ⟨rfl, hm, (Option.some.inj h).symm⟩)
        · exact Or.inl (Option.some.inj h).symm
      | false =>
        cases hF : EqualFold e.Reason finished with
        | false =>
          rw [AddFunc_neither _ _ _ _ _ hS hF] at h
          exact Or.inl (Option.some.inj h).symm
        | true =>
          cases hm : st.svcNameToTimesMap e.InvolvedObjectName with
          | none => simp [AddFunc, hps, hS, hF, hm] at h
          | some times =>
            rw [AddFunc_finished _ _ _ _ _ _ hps hS hF hm] at h
            exact Or.inr (Or.inr ⟨times, rfl, rfl, (Option.some.inj h).symm⟩)

theorem mapSet_same {β : Type} (m : String → Option β) (k : String) (v : β) :
    mapSet m k v k = some v := by
  simp [mapSet]

theorem mapSet_other {β : Type} (m : String → Option β) (k key : String) (v : β)
    (h : key ≠ k) : mapSet m k v key = m key := by
  simp [mapSet, h]

theorem Keyed_mapSet (st : ServiceTimer) (k : String) (v : ObjectFinishTime)
    (hk : Keyed st) (hv : v.Name = k) (ps : String → Option Bool)
    (ft : List ObjectFinishTime) :
    Keyed { st with
      svcNameToTimesMap := mapSet st.svcNameToTimesMap k v
      finishTimes := ft
      processingServices := ps } := by
  intro key r hr
  by_cases hkey : key = k
  · subst hkey
    simp only [mapSet_same] at hr
    rw [← Option.some.inj hr]
    exact hv
  · simp only [mapSet_other _ _ _ _ hkey] at hr
    exact hk key r hr

theorem eventsStep_keyed (EqualFold : String → String → Bool) (started finished : String)
    (st st' : ServiceTimer) (i : Input) (hk : Keyed st)
    (h : eventsStep EqualFold started finished st i = some st') : Keyed st' := by
  cases i with
  | register k =>
    simp only [eventsStep, registerName, Option.some.injEq] at h
    subst h
    exact hk
  | notify obj =>
    cases obj with
    | service s =>
      simp only [eventsStep, AddFunc, Option.some.injEq] at h
      subst h; exact hk
    | other =>
      simp only [eventsStep, AddFunc, Option.some.injEq] at h
      subst h; exact hk
    | event e =>
      rcases AddFunc_cases _ _ _ _ _ _ h with h1 | ⟨_, _, h2⟩ | ⟨times, _, hm, h3⟩
      · subst h1; exact hk
      · subst h2
        exact Keyed_mapSet st e.InvolvedObjectName
          ⟨e.InvolvedObjectName, e.CreationTimestamp, 0⟩ hk rfl _ _
      · subst h3
        exact Keyed_mapSet st e.InvolvedObjectName
          { times with Finished := e.CreationTimestamp } hk
          (hk e.InvolvedObjectName times hm) _ _

theorem completions_push (st : ServiceTimer) (name : String) (t : ObjectFinishTime)
    (m : String → Option ObjectFinishTime) (ps : String → Option Bool) :
    completions { st with
        svcNameToTimesMap := m
        finishTimes := st.finishTimes ++ [t]
        processingServices := ps } name =
      completions st name ++ (if t.Name = name then [t] else []) := by
  by_cases h : t.Name = name <;> simp [completions, List.filter_append, List.filter_cons, h]

/-- What one input of the event-based engine does to the records carrying
`name` and to the registry entry of `name`. -/
theorem eventsStep_effect (EqualFold : String → String → Bool) (started finished : String)
    (st st' : ServiceTimer) (i : Input) (name : String) (hk : Keyed st)
    (h : eventsStep EqualFold started finished st i = some st') :
    (completions st' name = completions st name ∧
      (st'.processingServices name = st.processingServices name ∨ i = .register name)) ∨
    (∃ times, st.processingServices name = some false ∧
      st.svcNameToTimesMap name = some times ∧
      (∃ e, i = .notify (.event e) ∧ e.InvolvedObjectName = name ∧
        EqualFold e.Reason started = false ∧ EqualFold e.Reason finished = true ∧
        completions st' name =
          completions st name ++ [{ times with Finished := e.CreationTimestamp }]) ∧
      st'.processingServices name = some true) := by
  cases i with
  | register k =>
    simp only [eventsStep, registerName, Option.some.injEq] at h
    subst h
    left
    refine ⟨rfl, ?_⟩
    by_cases hkn : name = k
    · right; rw [hkn]
    · left; exact mapSet_other _ _ _ _ hkn
  | notify obj =>
    cases obj with
    | service s =>
      simp only [eventsStep, AddFunc, Option.some.injEq] at h
      subst h; exact Or.inl ⟨rfl, Or.inl rfl⟩
    | other =>
      simp only [eventsStep, AddFunc, Option.some.injEq] at h
      subst h; exact Or.inl ⟨rfl, Or.inl rfl⟩
    | event e =>
      have h0 := h
      rcases AddFunc_cases _ _ _ _ _ _ h with h1 | ⟨_, _, h2⟩ | ⟨times, hps, hm, h3⟩
      · subst h1; exact Or.inl ⟨rfl, Or.inl rfl⟩
      · subst h2; exact Or.inl ⟨rfl, Or.inl rfl⟩
      · have hname : times.Name = e.InvolvedObjectName := hk _ _ hm
        by_cases hn : e.InvolvedObjectName = name
        · right
          have hS : EqualFold e.Reason started = false := by
            cases hS : EqualFold e.Reason started with
            | false => rfl
            | true =>
              rw [eventsStep, AddFunc_started _ _ _ _ _ hps hS, hm] at h0
              simp only [reduceCtorEq, ↓reduceIte, Option.some.injEq] at h0
              rw [← h0] at h3
              have := congrArg ServiceTimer.finishTimes h3
              simp at this
          have hF : EqualFold e.Reason finished = true := by
            cases hF : EqualFold e.Reason finished with
            | true => rfl
            | false =>
              rw [eventsStep, AddFunc_neither _ _ _ _ _ hS hF] at h0
              rw [← Option.some.inj h0] at h3
              have := congrArg ServiceTimer.finishTimes h3
              simp at this
          subst h3
          refine ⟨times, hn ▸ hps, hn ▸ hm, ⟨e, rfl, hn, hS, hF, ?_⟩, ?_⟩
          · rw [completions_push]
            simp [hname, hn]
          · rw [← hn]; exact mapSet_same _ _ _
        · left
          subst h3
          refine ⟨?_, Or.inl ?_⟩
          · rw [completions_push]
            simp [hname, hn]
          · exact mapSet_other _ _ _ _ (fun h => hn h.symm)

theorem eventsRun_cons_some (EqualFold : String → String → Bool) (started finished : String)
    (st next : ServiceTimer) (i : Input) (rest : List Input)
    (h : eventsStep EqualFold started finished st i = some next) :
    eventsRun EqualFold started finished st (i :: rest) =
      eventsRun EqualFold started finished next rest := by
  simp [eventsRun, h]

theorem eventsRun_cons_none (EqualFold : String → String → Bool) (started finished : String)
    (st : ServiceTimer) (i : Input) (rest : List Input)
    (h : eventsStep EqualFold started finished st i = none) :
    eventsRun EqualFold started finished st (i :: rest) = (st, true) := by
  simp [eventsRun, h]

theorem eventsRun_append (EqualFold : String → String → Bool) (started finished : String)
    (l₁ l₂ : List Input) : ∀ st : ServiceTimer,
    eventsRun EqualFold started finished st (l₁ ++ l₂) =
      if (eventsRun EqualFold started finished st l₁).2 = true then
        eventsRun EqualFold started finished st l₁
      else eventsRun EqualFold started finished (eventsRun EqualFold started finished st l₁).1 l₂ := by
  induction l₁ with
  | nil => intro st; simp [eventsRun]
  | cons i rest ih =>
    intro st
    cases h : eventsStep EqualFold started finished st i with
    | none => simp [eventsRun, h]
    | some next =>
      rw [List.cons_append, eventsRun_cons_some _ _ _ _ _ _ _ h,
        eventsRun_cons_some _ _ _ _ _ _ _ h]
      exact ih next

/-- A property kept by every input of a given kind holds in the last state
of any run over inputs of that kind. -/
theorem eventsRun_invariant (EqualFold : String → String → Bool) (started finished : String)
    (P : ServiceTimer → Prop) (Q : Input → Prop)
    (hstep : ∀ st i st', P st → Q i →
      eventsStep EqualFold started finished st i = some st' → P st') :
    ∀ (l : List Input) (st : ServiceTimer), (∀ i ∈ l, Q i) → P st →
      P (eventsRun EqualFold started finished st l).1 := by
  intro l
  induction l with
  | nil => intro st _ hP; exact hP
  | cons i rest ih =>
    intro st hQ hP
    cases h : eventsStep EqualFold started finished st i with
    | none => rw [eventsRun_cons_none _ _ _ _ _ _ h]; exact hP
    | some next =>
      rw [eventsRun_cons_some _ _ _ _ _ _ _ h]
      exact ih next (fun j hj => hQ j (List.mem_cons_of_mem _ hj))
        (hstep st i next hP (hQ i (List.mem_cons_self _ _)) h)

/-- An event about another subject changes nothing that concerns `name`. -/
theorem AddFunc_other_name (EqualFold : String → String → Bool) (started finished : String)
    (st st' : ServiceTimer) (e : Event) (name : String) (hk : Keyed st)
    (hne : e.InvolvedObjectName ≠ name)
    (h : AddFunc EqualFold started finished st (.event e) = some st') :
    st'.processingServices name = st.processingServices name ∧
    st'.svcNameToTimesMap name = st.svcNameToTimesMap name ∧
    completions st' name = completions st name := by
  have hne' : name ≠ e.InvolvedObjectName := fun h => hne h.symm
  rcases AddFunc_cases _ _ _ _ _ _ h with h1 | ⟨_, _, h2⟩ | ⟨times, _, hm, h3⟩
  · subst h1; exact ⟨rfl, rfl, rfl⟩
  · subst h2; exact ⟨rfl, mapSet_other _ _ _ _ hne', rfl⟩
  · subst h3
    refine ⟨mapSet_other _ _ _ _ hne', mapSet_other _ _ _ _ hne', ?_⟩
    rw [completions_push]
    have : times.Name = e.InvolvedObjectName := hk _ _ hm
    simp [this, hne]

/-- A notification keeps the frame of `name` whenever the callback, on an
event about `name` itself, returns the timer as it was. -/
theorem eventsStep_frame (EqualFold : String → String → Bool) (started finished : String)
    (name : String) (flag : Option Bool) (entry : Option ObjectFinishTime)
    (sent : List ObjectFinishTime) (st st' : ServiceTimer) (obj : Obj)
    (hF : Frame name flag entry sent st)
    (hown : ∀ e, obj = .event e → e.InvolvedObjectName = name →
      AddFunc EqualFold started finished st (.event e) = some st)
    (h : eventsStep EqualFold started finished st (.notify obj) = some st') :
    Frame name flag entry sent st' := by
  have hk' := eventsStep_keyed _ _ _ _ _ _ hF.1 h
  cases obj with
  | service s =>
    simp only [eventsStep, AddFunc, Option.some.injEq] at h
    subst h; exact hF
  | other =>
    simp only [eventsStep, AddFunc, Option.some.injEq] at h
    subst h; exact hF
  | event e =>
    by_cases hn : e.InvolvedObjectName = name
    · have := hown e rfl hn
      rw [eventsStep, this] at h
      rw [← Option.some.inj h]; exact hF
    · obtain ⟨h1, h2, h3⟩ := AddFunc_other_name _ _ _ _ _ _ name hF.1 hn h
      exact ⟨hk', h1.trans hF.2.1, h2.trans hF.2.2.1, h3.trans hF.2.2.2⟩

/-- Run over notifications only: the frame of `name` survives as long as every
event about `name` is one the callback answers by returning the timer as it
was in any state with that frame. -/
theorem eventsRun_frame (EqualFold : String → String → Bool) (started finished : String)
    (name : String) (flag : Option Bool) (entry : Option ObjectFinishTime)
    (sent : List ObjectFinishTime) (objs : List Obj) (st : ServiceTimer)
    (hF : Frame name flag entry sent st)
    (hown : ∀ e, Obj.event e ∈ objs → e.InvolvedObjectName = name →
      ∀ s, Frame name flag entry sent s →
        AddFunc EqualFold started finished s (.event e) = some s) :
    Frame name flag entry sent
      (eventsRun EqualFold started finished st (objs.map Input.notify)).1 := by
  refine eventsRun_invariant EqualFold started finished (Frame name flag entry sent)
    (fun i => ∃ obj, i = .notify obj ∧ obj ∈ objs) ?_ _ st ?_ hF
  · rintro s i s' hs ⟨obj, rfl, hobj⟩ hstep
    refine eventsStep_frame _ _ _ _ _ _ _ s s' obj hs ?_ hstep
    intro e he hn
    exact hown e (he ▸ hobj) hn s hs
  · intro i hi
    obtain ⟨obj, hobj, rfl⟩ := List.mem_map.mp hi
    exact ⟨obj, rfl, hobj⟩

theorem Keyed_NewServiceTimer (definitionFile svcName svcNamespace startedEventReason
    finishedEventReason : String) (count : Int) (mode : String) :
    Keyed (NewServiceTimer definitionFile svcName svcNamespace startedEventReason
      finishedEventReason count mode) := by
  intro k r h
  simp [NewServiceTimer] at h

theorem Keyed_registerName (st : ServiceTimer) (name : String) (hk : Keyed st) :
    Keyed (registerName st name) := hk

theorem eventsRun_atMostOnce (EqualFold : String → String → Bool) (started finished : String)
    (name : String) : ∀ (inputs : List Input) (st : ServiceTimer), AtMostOnce name st →
      registersBeforeCompletion EqualFold started finished name st inputs = true →
      AtMostOnce name (eventsRun EqualFold started finished st inputs).1 := by
  intro inputs
  induction inputs with
  | nil => intro st h _; exact h
  | cons i rest ih =>
    intro st hinv hreg
    cases hstep : eventsStep EqualFold started finished st i with
    | none => rw [eventsRun_cons_none _ _ _ _ _ _ hstep]; exact hinv
    | some next =>
      rw [eventsRun_cons_some _ _ _ _ _ _ _ hstep]
      simp only [registersBeforeCompletion, hstep, Bool.and_eq_true] at hreg
      refine ih next ⟨eventsStep_keyed _ _ _ _ _ _ hinv.1 hstep, ?_⟩ hreg.2
      rcases eventsStep_effect _ _ _ _ _ _ name hinv.1 hstep with
        ⟨hc, hp⟩ | ⟨times, hps, _, ⟨e, _, _, _, _, hc⟩, hp⟩
      · rcases hinv.2 with h0 | ⟨h1, hdone⟩
        · exact Or.inl (hc.trans h0)
        · right
          refine ⟨by rw [hc]; exact h1, ?_⟩
          rcases hp with hp | hi
          · exact hp.trans hdone
          · subst hi
            have hchk := hreg.1
            simp only [bne_self_eq_false, Bool.false_or, List.isEmpty_iff] at hchk
            rw [hchk] at h1
            simp at h1
      · rcases hinv.2 with h0 | ⟨_, hdone⟩
        · right
          rw [hc, h0]
          exact ⟨rfl, hp⟩
        · rw [hps] at hdone
          simp at hdone

/-! ## Claims on the event callback -/

/-- C1.  Start in a state where no record carrying `name` has been sent (as
after `NewServiceTimer`) and feed the event-based engine any sequence of
registrations and notifications in which `name` is registered only while no
record of it has been sent: whatever the duplicates among the notifications,
at most one record carrying `name` is on `finishTimes` when the run ends or
fails. -/
theorem at_most_one_completion (EqualFold : String → String → Bool) (started finished : String)
    (name : String) (st : ServiceTimer) (inputs : List Input)
    (hk : Keyed st) (h0 : completions st name = [])
    (hreg : registersBeforeCompletion EqualFold started finished name st inputs = true) :
    (completions (eventsRun EqualFold started finished st inputs).1 name).length ≤ 1 := by
  have h := eventsRun_atMostOnce EqualFold started finished name inputs st ⟨hk, Or.inl h0⟩ hreg
  rcases h.2 with h | ⟨h, _⟩
  · rw [h]; exact Nat.zero_le 1
  · exact le_of_eq h

/-- C2 (failing input).  A Finished notification for a registered, unfinished
name that has no start time recorded makes the event callback fail with a nil
pointer dereference. -/
theorem AddFunc_finished_before_started (EqualFold : String → String → Bool)
    (started finished : String) (st : ServiceTimer) (name reason : String) (at_ : Int)
    (hreg : st.processingServices name = some false)
    (hnew : st.svcNameToTimesMap name = none)
    (hS : EqualFold reason started = false) (hF : EqualFold reason finished = true) :
    AddFunc EqualFold started finished st (.event ⟨name, reason, at_⟩) = none := by
  simp [AddFunc, hreg, hnew, hS, hF]

/-- C9.  Take a name that is registered and unfinished with no start time
recorded, and a notification sequence in which the first Started notification
for the name (timestamp `s`) comes before its first Finished notification
(timestamp `f`); other subjects, redundant Started notifications and anything
after the Finished notification are unconstrained.  Then the only record of
that name the run can add to `finishTimes` is `(name, s, f)`, and a run that
does not fail adds it exactly once. -/
theorem started_then_finished_record (EqualFold : String → String → Bool)
    (started finished : String) (st : ServiceTimer) (name : String)
    (pre mid post : List Obj) (reasonS reasonF : String) (s f : Int)
    (hk : Keyed st) (hreg : st.processingServices name = some false)
    (hnew : st.svcNameToTimesMap name = none)
    (hpre : ∀ e, Obj.event e ∈ pre → e.InvolvedObjectName = name →
      EqualFold e.Reason started = false ∧ EqualFold e.Reason finished = false)
    (hS : EqualFold reasonS started = true)
    (hmid : ∀ e, Obj.event e ∈ mid → e.InvolvedObjectName = name →
      EqualFold e.Reason started = true ∨ EqualFold e.Reason finished = false)
    (hF : EqualFold reasonF started = false ∧ EqualFold reasonF finished = true) :
    ((eventsRun EqualFold started finished st
        ((pre ++ .event ⟨name, reasonS, s⟩ :: (mid ++ .event ⟨name, reasonF, f⟩ :: post)).map
          Input.notify)).2 = false →
      completions (eventsRun EqualFold started finished st
        ((pre ++ .event ⟨name, reasonS, s⟩ :: (mid ++ .event ⟨name, reasonF, f⟩ :: post)).map
          Input.notify)).1 name = completions st name ++ [⟨name, s, f⟩]) ∧
    (completions (eventsRun EqualFold started finished st
        ((pre ++ .event ⟨name, reasonS, s⟩ :: (mid ++ .event ⟨name, reasonF, f⟩ :: post)).map
          Input.notify)).1 name = completions st name ∨
      completions (eventsRun EqualFold started finished st
        ((pre ++ .event ⟨name, reasonS, s⟩ :: (mid ++ .event ⟨name, reasonF, f⟩ :: post)).map
          Input.notify)).1 name = completions st name ++ [⟨name, s, f⟩]) := by
  -- phase 1: nothing about `name` is accepted before the first Started notification
  have hA := eventsRun_frame EqualFold started finished name (some false) none
    (completions st name) pre st ⟨hk, hreg, hnew, rfl⟩
    (fun e he hn s _ => AddFunc_neither _ _ _ s e (hpre e he hn).1 (hpre e he hn).2)
  simp only [List.map_append, List.map_cons]
  rw [eventsRun_append]
  by_cases c1 : (eventsRun EqualFold started finished st (pre.map Input.notify)).2 = true
  · rw [if_pos c1]
    exact ⟨fun h => absurd c1 (by simp [h]), Or.inl hA.2.2.2⟩
  rw [if_neg c1]
  generalize (eventsRun EqualFold started finished st (pre.map Input.notify)).1 = st1 at hA
  -- the first Started notification records the start time
  have hstepS : eventsStep EqualFold started finished st1 (.notify (.event ⟨name, reasonS, s⟩)) =
      some { st1 with
        svcNameToTimesMap := mapSet st1.svcNameToTimesMap name ⟨name, s, 0⟩ } := by
    rw [eventsStep, AddFunc_started _ _ _ st1 ⟨name, reasonS, s⟩ hA.2.1 hS]
    simp [hA.2.2.1]
  rw [eventsRun_cons_some _ _ _ _ _ _ _ hstepS]
  have hB0 : Frame name (some false) (some ⟨name, s, 0⟩) (completions st name)
      { st1 with svcNameToTimesMap := mapSet st1.svcNameToTimesMap name ⟨name, s, 0⟩ } :=
    ⟨eventsStep_keyed _ _ _ _ _ _ hA.1 hstepS, hA.2.1, mapSet_same _ _ _, hA.2.2.2⟩
  generalize ({ st1 with svcNameToTimesMap := mapSet st1.svcNameToTimesMap name ⟨name, s, 0⟩ } :
    ServiceTimer) = st2 at hB0
  -- phase 2: redundant Started notifications change nothing
  have hB := eventsRun_frame EqualFold started finished name (some false) (some ⟨name, s, 0⟩)
    (completions st name) mid st2 hB0
    (fun e he hn s hs => by
      cases hSe : EqualFold e.Reason started with
      | true =>
        rw [AddFunc_started _ _ _ s e (hn ▸ hs.2.1) hSe]
        have : s.svcNameToTimesMap e.InvolvedObjectName ≠ none := by
          rw [hn, hs.2.2.1]; simp
        simp [this]
      | false =>
        rcases hmid e he hn with h | h
        · rw [hSe] at h; simp at h
        · exact AddFunc_neither _ _ _ s e hSe h)
  rw [eventsRun_append]
  by_cases c2 : (eventsRun EqualFold started finished st2 (mid.map Input.notify)).2 = true
  · rw [if_pos c2]
    exact ⟨fun h => absurd c2 (by simp [h]), Or.inl hB.2.2.2⟩
  rw [if_neg c2]
  generalize (eventsRun EqualFold started finished st2 (mid.map Input.notify)).1 = st3 at hB
  -- the first Finished notification sends the record and marks the name as done
  have hstepF : eventsStep EqualFold started finished st3 (.notify (.event ⟨name, reasonF, f⟩)) =
      some { st3 with
        svcNameToTimesMap := mapSet st3.svcNameToTimesMap name ⟨name, s, f⟩
        finishTimes := st3.finishTimes ++ [⟨name, s, f⟩]
        processingServices := mapSet st3.processingServices name true } := by
    rw [eventsStep, AddFunc_finished _ _ _ st3 ⟨name, reasonF, f⟩ ⟨name, s, 0⟩ hB.2.1 hF.1 hF.2
      hB.2.2.1]
  rw [eventsRun_cons_some _ _ _ _ _ _ _ hstepF]
  have hC0 : Frame name (some true) (some ⟨name, s, f⟩) (completions st name ++ [⟨name, s, f⟩])
      { st3 with
        svcNameToTimesMap := mapSet st3.svcNameToTimesMap name ⟨name, s, f⟩
        finishTimes := st3.finishTimes ++ [⟨name, s, f⟩]
        processingServices := mapSet st3.processingServices name true } := by
    refine ⟨eventsStep_keyed _ _ _ _ _ _ hB.1 hstepF, mapSet_same _ _ _, mapSet_same _ _ _, ?_⟩
    rw [completions_push, hB.2.2.2]
    simp
  generalize ({ st3 with
        svcNameToTimesMap := mapSet st3.svcNameToTimesMap name ⟨name, s, f⟩
        finishTimes := st3.finishTimes ++ [⟨name, s, f⟩]
        processingServices := mapSet st3.processingServices name true } : ServiceTimer) = st4
    at hC0
  -- phase 3: the name is done, every later notification about it is ignored
  have hC := eventsRun_frame EqualFold started finished name (some true) (some ⟨name, s, f⟩)
    (completions st name ++ [⟨name, s, f⟩]) post st4 hC0
    (fun e _ hn s hs => AddFunc_done _ _ _ s e (hn ▸ hs.2.1))
  exact ⟨fun _ => hC.2.2.2, Or.inr hC.2.2.2⟩

/-- Witness of C1: one name registered twice before it completes, with the
Started and the Finished notification both delivered twice. -/
theorem at_most_one_completion_witness :
    completions demoTimer "svc" = [] ∧
    registersBeforeCompletion asciiEqualFold "EnsuringLoadBalancer" "EnsuredLoadBalancer" "svc"
      demoTimer
      [.register "svc", .notify (.event ⟨"svc", "EnsuringLoadBalancer", 5⟩), .register "svc",
       .notify (.event ⟨"svc", "ensuringloadbalancer", 6⟩),
       .notify (.event ⟨"svc", "EnsuredLoadBalancer", 9⟩),
       .notify (.event ⟨"svc", "EnsuredLoadBalancer", 11⟩)] = true ∧
    (completions (eventsRun asciiEqualFold "EnsuringLoadBalancer" "EnsuredLoadBalancer" demoTimer
      [.register "svc", .notify (.event ⟨"svc", "EnsuringLoadBalancer", 5⟩), .register "svc",
       .notify (.event ⟨"svc", "ensuringloadbalancer", 6⟩),
       .notify (.event ⟨"svc", "EnsuredLoadBalancer", 9⟩),
       .notify (.event ⟨"svc", "EnsuredLoadBalancer", 11⟩)]).1 "svc").length ≤ 1 :=
  ⟨by decide, by decide,
    at_most_one_completion asciiEqualFold "EnsuringLoadBalancer" "EnsuredLoadBalancer" "svc"
      demoTimer _ (Keyed_NewServiceTimer _ _ _ _ _ _ _) (by decide) (by decide)⟩

/-- Witness of C2 (failing input): `svc` is registered and the first
notification about it is the Finished one. -/
theorem AddFunc_finished_before_started_witness :
    (registerName demoTimer "svc").processingServices "svc" = some false ∧
    (registerName demoTimer "svc").svcNameToTimesMap "svc" = none ∧
    AddFunc asciiEqualFold "EnsuringLoadBalancer" "EnsuredLoadBalancer"
      (registerName demoTimer "svc") (.event ⟨"svc", "EnsuredLoadBalancer", 9⟩) = none :=
  ⟨by decide, by decide,
    AddFunc_finished_before_started asciiEqualFold "EnsuringLoadBalancer" "EnsuredLoadBalancer"
      (registerName demoTimer "svc") "svc" "EnsuredLoadBalancer" 9 (by decide) (by decide)
      (by decide) (by decide)⟩

/-- Witness of C9: an event about another subject, the Started notification at
`5`, a redundant one at `6`, the Finished notification at `9` and a repeated
one at `11`; the run does not fail and sends exactly `(svc, 5, 9)`. -/
theorem started_then_finished_record_witness :
    (registerName demoTimer "svc").processingServices "svc" = some false ∧
    completions (eventsRun asciiEqualFold "EnsuringLoadBalancer" "EnsuredLoadBalancer"
      (registerName demoTimer "svc")
      ([Obj.event ⟨"other", "EnsuredLoadBalancer", 1⟩,
        .event ⟨"svc", "EnsuringLoadBalancer", 5⟩,
        .event ⟨"svc", "ensuringloadbalancer", 6⟩,
        .event ⟨"svc", "EnsuredLoadBalancer", 9⟩,
        .event ⟨"svc", "EnsuredLoadBalancer", 11⟩].map Input.notify)).1 "svc" =
      [⟨"svc", 5, 9⟩] :=
  ⟨by decide,
    (started_then_finished_record asciiEqualFold "EnsuringLoadBalancer" "EnsuredLoadBalancer"
      (registerName demoTimer "svc") "svc"
      [.event ⟨"other", "EnsuredLoadBalancer", 1⟩]
      [.event ⟨"svc", "ensuringloadbalancer", 6⟩]
      [.event ⟨"svc", "EnsuredLoadBalancer", 11⟩]
      "EnsuringLoadBalancer" "EnsuredLoadBalancer" 5 9
      (Keyed_registerName _ _ (Keyed_NewServiceTimer _ _ _ _ _ _ _)) (by decide) (by decide)
      (by
        intro e he hn
        simp only [List.mem_singleton, Obj.event.injEq] at he
        subst he
        exact absurd hn (by decide))
      (by decide)
      (by
        intro e he _
        simp only [List.mem_singleton, Obj.event.injEq] at he
        subst he
        exact Or.inl (by decide))
      ⟨by decide, by decide⟩).1 (by decide)⟩

/-! ## Claims on the service callback -/

/-- C6 (failing input).  With nothing registered, an update of a service `x`
from no ingress entry to one with an IP makes the service callback send a
record for `x`: the callback never looks at `processingServices`. -/
theorem UpdateFunc_sends_for_unregistered :
    statusTimer.processingServices "x" = none ∧
    (UpdateFunc 7 statusTimer (.service ⟨"x", 1, []⟩) (.service ⟨"x", 1, [⟨"10.0.0.1"⟩]⟩)).map
      (fun st => st.finishTimes) = some [⟨"x", 1, 7⟩] := by
  decide

/-- C10.  On an update notification carrying two services, the service
callback never fails; it sends exactly one record, with the new service's name
and creation timestamp and the time of receipt, when the update is a rising
edge, and leaves the timer as it was otherwise. -/
theorem UpdateFunc_rising_edge (now : Int) (st : ServiceTimer) (oldSvc newSvc : Service) :
    UpdateFunc now st (.service oldSvc) (.service newSvc) =
      some (if risingEdge oldSvc newSvc then
        { st with
          finishTimes := st.finishTimes ++ [⟨newSvc.Name, newSvc.CreationTimestamp, now⟩] }
      else st) := by
  obtain ⟨oldName, oldCreated, oldIngress⟩ := oldSvc
  obtain ⟨newName, newCreated, newIngress⟩ := newSvc
  cases oldIngress with
  | nil =>
    cases newIngress with
    | nil => simp [UpdateFunc, risingEdge, lacksExternalIP]
    | cons i rest =>
      by_cases hi : i.IP = "" <;>
        simp [UpdateFunc, firstIngressIP, risingEdge, lacksExternalIP, hi]
  | cons o orest =>
    by_cases ho : o.IP = ""
    · cases newIngress with
      | nil => simp [UpdateFunc, firstIngressIP, risingEdge, lacksExternalIP, ho]
      | cons i rest =>
        by_cases hi : i.IP = "" <;>
          simp [UpdateFunc, firstIngressIP, risingEdge, lacksExternalIP, ho, hi]
    · simp [UpdateFunc, firstIngressIP, risingEdge, lacksExternalIP, ho]

/-! ## Claims on validation -/

theorem Validate_error_of_validateCount (EqualFold : String → String → Bool)
    (ReadFile : String → Except String String) (st : ServiceTimer) (err : String)
    (h : validateCount ReadFile st = .error err) :
    ∃ msg, Validate EqualFold ReadFile st = .error msg := by
  unfold Validate
  split
  · exact ⟨_, rfl⟩
  · split
    · exact ⟨_, rfl⟩
    · split
      · exact ⟨_, rfl⟩
      · rw [h]
        exact ⟨err, rfl⟩

theorem Validate_error_of_validateMsg (EqualFold : String → String → Bool)
    (ReadFile : String → Except String String) (st : ServiceTimer) (err : String)
    (h : validateMsg st = .error err) :
    ∃ msg, Validate EqualFold ReadFile st = .error msg := by
  unfold Validate
  split
  · exact ⟨_, rfl⟩
  · split
    · exact ⟨_, rfl⟩
    · split
      · exact ⟨_, rfl⟩
      · cases hc : validateCount ReadFile st with
        | error e => exact ⟨e, rfl⟩
        | ok u =>
          rw [h]
          exact ⟨err, rfl⟩

theorem validateCount_error_of_lt_one (ReadFile : String → Except String String)
    (st : ServiceTimer) (h : st.Count < 1) :
    ∃ msg, validateCount ReadFile st = .error msg := by
  have h0 : st.Count ≤ 0 := by omega
  exact ⟨"provided count " ++ toString st.Count ++ " is invalid",
    by simp only [validateCount, h0, ↓reduceIte]⟩

theorem validateCount_error_of_no_generateName (ReadFile : String → Except String String)
    (st : ServiceTimer) (h : st.Count > 1)
    (hfile : ∀ contents, ReadFile st.DefinitionFile = .ok contents →
      Contains contents "generateName" = false) :
    ∃ msg, validateCount ReadFile st = .error msg := by
  have h0 : ¬ st.Count ≤ 0 := by omega
  cases hr : ReadFile st.DefinitionFile with
  | error e =>
    exact ⟨"error reading service definition file: " ++ e,
      by simp only [validateCount, h0, h, hr, ↓reduceIte]⟩
  | ok contents =>
    have hc := hfile contents hr
    exact ⟨"metadata.GenerateName is required for creating multiple services",
      by simp [validateCount, h0, h, hr, hc]⟩

theorem validateMsg_error_of_mismatch (st : ServiceTimer)
    (h : (st.StartedEventReason ≠ "" ∧ st.FinishedEventReason = "") ∨
      (st.StartedEventReason = "" ∧ st.FinishedEventReason ≠ "")) :
    ∃ msg, validateMsg st = .error msg := by
  rcases h with ⟨hs, hf⟩ | ⟨hs, hf⟩
  · exact ⟨"finished event reason is required", by simp [validateMsg, hs, hf]⟩
  · exact ⟨"started event reason is required", by simp [validateMsg, hs, hf]⟩

/-- What `Validate` does reject: it returns an error whenever the mode is
create or create-async and `DefinitionFile` is empty, or the mode is delete and
`SvcName` is empty, or exactly one of `StartedEventReason` and
`FinishedEventReason` is non-empty, or `Count` is less than `1`, or `Count` is
greater than `1` and the text of the definition file, if it can be read at
all, does not contain the substring `generateName`.  "The mode is" stands for
the test of the code, `strings.EqualFold` against the mode constant. -/
theorem Validate_rejects_malformed (EqualFold : String → String → Bool)
    (ReadFile : String → Except String String) (st : ServiceTimer)
    (h : ((EqualFold st.Mode ServiceTimerModeCreate = true ∨
          EqualFold st.Mode ServiceTimerModeCreateAsync = true) ∧ st.DefinitionFile = "") ∨
      (EqualFold st.Mode ServiceTimerModeDelete = true ∧ st.SvcName = "") ∨
      ((st.StartedEventReason ≠ "" ∧ st.FinishedEventReason = "") ∨
        (st.StartedEventReason = "" ∧ st.FinishedEventReason ≠ "")) ∨
      st.Count < 1 ∨
      (st.Count > 1 ∧ ∀ contents, ReadFile st.DefinitionFile = .ok contents →
        Contains contents "generateName" = false)) :
    ∃ msg, Validate EqualFold ReadFile st = .error msg := by
  rcases h with ⟨hmode, hfile⟩ | ⟨hmode, hname⟩ | hmsg | hcount | ⟨hcount, hgen⟩
  · refine ⟨"definition file is required", ?_⟩
    rcases hmode with hmode | hmode <;> simp [Validate, hmode, hfile]
  · unfold Validate
    split
    · exact ⟨_, rfl⟩
    · exact ⟨"service name is required for delete mode", by simp [hmode, hname]⟩
  · obtain ⟨err, herr⟩ := validateMsg_error_of_mismatch st hmsg
    exact Validate_error_of_validateMsg EqualFold ReadFile st err herr
  · obtain ⟨err, herr⟩ := validateCount_error_of_lt_one ReadFile st hcount
    exact Validate_error_of_validateCount EqualFold ReadFile st err herr
  · obtain ⟨err, herr⟩ := validateCount_error_of_no_generateName ReadFile st hcount hgen
    exact Validate_error_of_validateCount EqualFold ReadFile st err herr

/-- Instances of `Validate_rejects_malformed`, one configuration for each way
of being rejected:
create-async without a definition file, delete without a service name, a
started reason without a finished one, a count of `0`, and a count of `3` with
a definition file that has no `generateName`. -/
theorem Validate_rejects_malformed_witness :
    (∃ msg, Validate asciiEqualFold sampleReadFile
      (NewServiceTimer "" "" "default" "" "" 1 "ServiceTimerModeCreateAsync") = .error msg) ∧
    (∃ msg, Validate asciiEqualFold sampleReadFile
      (NewServiceTimer "" "" "default" "DeletingLoadBalancer" "DeletedLoadBalancer" 1
        "ServiceTimerModeDelete") = .error msg) ∧
    (∃ msg, Validate asciiEqualFold sampleReadFile
      (NewServiceTimer "svc.yaml" "" "default" "EnsuringLoadBalancer" "" 1
        "ServiceTimerModeCreate") = .error msg) ∧
    (∃ msg, Validate asciiEqualFold sampleReadFile
      (NewServiceTimer "svc.yaml" "" "default" "" "" 0 "ServiceTimerModeCreate") = .error msg) ∧
    (∃ msg, Validate asciiEqualFold sampleReadFile
      (NewServiceTimer "svc.yaml" "" "default" "" "" 3 "ServiceTimerModeCreate") = .error msg) :=
  ⟨Validate_rejects_malformed asciiEqualFold sampleReadFile _
      (Or.inl ⟨Or.inr (by decide), by decide⟩),
    Validate_rejects_malformed asciiEqualFold sampleReadFile _
      (Or.inr (Or.inl ⟨by decide, by decide⟩)),
    Validate_rejects_malformed asciiEqualFold sampleReadFile _
      (Or.inr (Or.inr (Or.inl (Or.inl ⟨by decide, by decide⟩)))),
    Validate_rejects_malformed asciiEqualFold sampleReadFile _
      (Or.inr (Or.inr (Or.inr (Or.inl (by decide))))),
    Validate_rejects_malformed asciiEqualFold sampleReadFile _
      (Or.inr (Or.inr (Or.inr (Or.inr ⟨by decide, by
        intro contents h
        have h2 : Except.ok "kind: Service metadata: name: lb" = Except.ok contents := h
        rw [← Except.ok.inj h2]
        decide⟩))))⟩

/-- C11 (failing input).  A count of `3` with the definition file
`fixed.yaml`, whose metadata has a fixed `name`, no `generateName` field, and
the word `generateName` in a comment only: the substring test of
`validateCount` finds the word and `Validate` returns the nil error.  The same
configuration with `svc.yaml`, which lacks the field and the word, is
rejected. -/
theorem Validate_accepts_missing_generateName_field :
    sampleReadFile "fixed.yaml" =
      .ok "kind: Service\nmetadata:\n  name: lb # fixed name, generateName not used\n" ∧
    Validate asciiEqualFold sampleReadFile
      (NewServiceTimer "fixed.yaml" "" "default" "" "" 3 "ServiceTimerModeCreate") = .ok () ∧
    Validate asciiEqualFold sampleReadFile
      (NewServiceTimer "svc.yaml" "" "default" "" "" 3 "ServiceTimerModeCreate") =
      .error "metadata.GenerateName is required for creating multiple services" :=
  ⟨rfl, rfl, rfl⟩

end KubeTimer
